import Mathlib

/-!
Shallow embedding of the conversion/evaluation engine of the
Infix-Postfix-Prefix-Converter repository (src/logic/stack.ts,
src/logic/constants.ts, src/logic/algorithms.ts).

Host strings are modelled as `List Char` (each input character is one
token, as in the source, which splits the input into single characters).
Host numbers are modelled by `JSNum`: finite values exactly as rationals,
plus the two signed infinities and NaN.  The trace `action` strings of the
source are purely presentational interpolated text and are omitted from
the model; every other field of a trace entry is kept.
-/

namespace Converter

/-- Model of a host (IEEE double) number: a finite value (kept exactly as a
rational), a signed infinity, or NaN. -/
inductive JSNum
  | num (q : ℚ)
  | inf (pos : Bool)
  | nan
deriving DecidableEq

/-- Host addition on numbers (`a + b`). -/
def jsAdd : JSNum → JSNum → JSNum
  | .nan, _ => .nan
  | _, .nan => .nan
  | .inf p, .inf q => if p = q then .inf p else .nan
  | .inf p, .num _ => .inf p
  | .num _, .inf q => .inf q
  | .num a, .num b => .num (a + b)

/-- Host subtraction on numbers (`a - b`). -/
def jsSub : JSNum → JSNum → JSNum
  | .nan, _ => .nan
  | _, .nan => .nan
  | .inf p, .inf q => if p = q then .nan else .inf p
  | .inf p, .num _ => .inf p
  | .num _, .inf q => .inf (!q)
  | .num a, .num b => .num (a - b)

/-- Host multiplication on numbers (`a * b`).  Zero times an infinity is
NaN; the sign of an infinite product follows the signs of the factors. -/
def jsMul : JSNum → JSNum → JSNum
  | .nan, _ => .nan
  | _, .nan => .nan
  | .inf p, .inf q => .inf (p = q)
  | .inf p, .num b => if b = 0 then .nan else .inf (p = decide (0 < b))
  | .num a, .inf q => if a = 0 then .nan else .inf (q = decide (0 < a))
  | .num a, .num b => .num (a * b)

/-- Host division on numbers (`a / b`).  Division of a nonzero finite value
by zero yields an infinity, `0 / 0` yields NaN, and a finite value divided
by an infinity yields 0.  The host distinguishes `+0` from `-0` when
choosing the sign of an infinite quotient; the model does not track the
sign of zero and uses the positive-zero convention. -/
def jsDiv : JSNum → JSNum → JSNum
  | .nan, _ => .nan
  | _, .nan => .nan
  | .inf _, .inf _ => .nan
  | .inf p, .num b => .inf (p = decide (0 ≤ b))
  | .num _, .inf _ => .num 0
  | .num a, .num b =>
      if b = 0 then (if a = 0 then .nan else .inf (decide (0 < a)))
      else .num (a / b)

/-- Host exponentiation (`Math.pow(a, b)`), following the host's
case order: a NaN exponent gives NaN; a zero exponent gives 1 (even for a
NaN base); then a NaN base gives NaN; infinite bases and exponents follow
the host's magnitude rules.  For a finite base and a finite non-integral
exponent the host computes an (in general irrational) real raised to a
real power, which is not exactly representable in this rational model and
is modelled as NaN; no claim below depends on that corner. -/
def jsPow : JSNum → JSNum → JSNum
  | _, .nan => .nan
  | b, .num e =>
      if e = 0 then .num 1 else
      match b with
      | .nan => .nan
      | .inf p =>
          if p then (if 0 < e then .inf true else .num 0)
          else
            if 0 < e then
              (if e.den = 1 ∧ e.num % 2 = 1 then .inf false else .inf true)
            else .num 0
      | .num a =>
          if a = 0 then (if 0 < e then .num 0 else .inf true) else
          if e.den = 1 then .num (a ^ e.num) else .nan
  | b, .inf q =>
      match b with
      | .nan => .nan
      | .inf _ => if q then .inf true else .num 0
      | .num a =>
          if a = 1 ∨ a = -1 then .nan
          else if 1 < abs a then (if q then .inf true else .num 0)
          else (if q then .num 0 else .inf true)

/-- Host truthiness test on a number, for the `x || fallback` idiom:
`0` and NaN are falsy, every other number (including the infinities) is
truthy. -/
def jsFalsy : JSNum → Bool
  | .num q => q = 0
  | .inf _ => false
  | .nan => true

/-- Operator precedence table from src/logic/constants.ts.  A lookup of a
symbol outside the table yields no value (`undefined` in the host). -/
def PRECEDENCE (c : Char) : Option Nat :=
  if c = '+' then some 1
  else if c = '-' then some 1
  else if c = '*' then some 2
  else if c = '/' then some 2
  else if c = '^' then some 3
  else none

/-- Associativity table from src/logic/constants.ts ('L' or 'R'); absent
symbols yield no value. -/
def ASSOCIATIVITY (c : Char) : Option Char :=
  if c = '+' then some 'L'
  else if c = '-' then some 'L'
  else if c = '*' then some 'L'
  else if c = '/' then some 'L'
  else if c = '^' then some 'R'
  else none

/-- Host `>` on two possibly-undefined numbers: false whenever either side
is undefined. -/
def optGT : Option Nat → Option Nat → Bool
  | some a, some b => decide (b < a)
  | _, _ => false

/-- Host `===` on two possibly-undefined numbers. -/
def optEq : Option Nat → Option Nat → Bool
  | some a, some b => decide (a = b)
  | none, none => true
  | _, _ => false

/-- Token classifier from src/logic/constants.ts: an operator is exactly
one of the five symbols. -/
def isOperator (c : Char) : Bool :=
  c = '+' || c = '-' || c = '*' || c = '/' || c = '^'

/-- Token classifier from src/logic/constants.ts: an operand is a single
alphanumeric character. -/
def isOperand (c : Char) : Bool :=
  c.isAlpha || c.isDigit

/-- Whitespace stripping applied by every engine operation
(`expression.replace` of all whitespace with the empty string).  The host
regex class matches a few additional rare whitespace code points beyond
space, tab, carriage return and newline; the model uses the standard
character whitespace predicate. -/
def stripWS (l : List Char) : List Char :=
  l.filter (fun c => !c.isWhitespace)

/-- LIFO stack from src/logic/stack.ts.  The host stores the items
bottom-to-top in an array and pushes and pops at its end; the model stores
the same sequence top-first, so push and pop act on the head and the
snapshot (`toArray`) reverses. -/
structure Stack (T : Type) where
  items : List T
deriving DecidableEq

namespace Stack

/-- Push an element on top. -/
def push (s : Stack T) (x : T) : Stack T := ⟨x :: s.items⟩

/-- Remove and return the top element; on an empty stack the returned
value is absent and the stack is unchanged. -/
def pop (s : Stack T) : Option T × Stack T :=
  match s.items with
  | [] => (none, ⟨[]⟩)
  | x :: r => (some x, ⟨r⟩)

/-- Return the top element without removing it, or an absent value. -/
def peek (s : Stack T) : Option T := s.items.head?

/-- Whether the stack holds no element. -/
def isEmpty (s : Stack T) : Bool := s.items.isEmpty

/-- Number of currently held elements. -/
def size (s : Stack T) : Nat := s.items.length

/-- Independent bottom-to-top copy of the contents (the snapshot stored in
trace entries). -/
def toArray (s : Stack T) : List T := s.items.reverse

end Stack

/-- Token field of a trace entry: an ordinary input character, or one of
the synthetic markers the engine emits (the end-of-input flush marker of
infix-to-postfix conversion and the two phase markers of infix-to-prefix
conversion). -/
inductive TraceTok
  | tok (c : Char)
  | eofMark
  | reverseMark
  | finalMark
deriving DecidableEq

/-- Trace entry of the infix-to-postfix scan (operator stack of single
characters); the presentational action text is omitted. -/
structure OpStep where
  token : TraceTok
  stack : List Char
  output : List Char
deriving DecidableEq

/-- Trace entry of the four string-stack conversions; stack elements are
accumulated sub-expression strings. -/
structure StrStep where
  token : TraceTok
  stack : List (List Char)
  output : List Char
deriving DecidableEq

/-- Trace entry of the two numeric evaluations. -/
structure EvalStep where
  token : TraceTok
  stack : List JSNum
deriving DecidableEq

/-- Result record of the two infix conversions. -/
structure OpResult where
  steps : List OpStep
  result : List Char
deriving DecidableEq

/-- Result record of the four string-stack conversions. -/
structure StrResult where
  steps : List StrStep
  result : List Char
deriving DecidableEq

/-- Result record of the two evaluations. -/
structure EvalResult where
  steps : List EvalStep
  result : JSNum
deriving DecidableEq

/-- Condition of the operator while-loop of infix-to-postfix conversion:
the top of the stack is not a left parenthesis, and it has strictly
greater precedence than the incoming operator, or equal precedence while
the incoming operator is Left-associative. -/
def shouldPop (op top : Char) : Bool :=
  top ≠ '(' &&
    (optGT (PRECEDENCE top) (PRECEDENCE op) ||
      (optEq (PRECEDENCE top) (PRECEDENCE op) && ASSOCIATIVITY op = some 'L'))

/-- The operator while-loop of infix-to-postfix conversion: pop and append
to the output while the stack is non-empty and `shouldPop` holds of its
top; returns the remaining stack and the extended output. -/
def opPopLoop (op : Char) : List Char → List Char → List Char × List Char
  | [], output => ([], output)
  | top :: rest, output =>
      if shouldPop op top then opPopLoop op rest (output ++ [top])
      else (top :: rest, output)

/-- The right-parenthesis while-loop of infix-to-postfix conversion: pop
and append to the output until a left parenthesis is on top or the stack
is empty. -/
def parenPopLoop : List Char → List Char → List Char × List Char
  | [], output => ([], output)
  | top :: rest, output =>
      if top ≠ '(' then parenPopLoop rest (output ++ [top])
      else (top :: rest, output)

/-- Processing of one token of the infix-to-postfix scan: the four guarded
branches of the source (operand, left parenthesis, right parenthesis,
operator); any other character falls through every branch and changes
nothing. -/
def processInfixToken (stack output : List Char) (token : Char) :
    List Char × List Char :=
  if isOperand token then (stack, output ++ [token])
  else if token = '(' then (token :: stack, output)
  else if token = ')' then
    let r := parenPopLoop stack output
    (r.1.tail, r.2)
  else if isOperator token then
    let r := opPopLoop token stack output
    (token :: r.1, r.2)
  else (stack, output)

/-- The token loop of infix-to-postfix conversion, recording one trace
entry per token with the stack snapshot and output immediately after
processing that token; returns the trace, the final stack and the final
output. -/
def infixScan : List Char → List Char → List Char →
    List OpStep × List Char × List Char
  | [], stack, output => ([], stack, output)
  | t :: ts, stack, output =>
      let r := processInfixToken stack output t
      let s := infixScan ts r.1 r.2
      (⟨.tok t, r.1.reverse, r.2⟩ :: s.1, s.2)

/-- The trailing flush of infix-to-postfix conversion: pop every remaining
operator to the output, one end-of-input-tagged trace entry per pop. -/
def flushLoop : List Char → List Char → List OpStep × List Char
  | [], output => ([], output)
  | op :: rest, output =>
      let r := flushLoop rest (output ++ [op])
      (⟨.eofMark, rest.reverse, output ++ [op]⟩ :: r.1, r.2)

/-- Shunting-yard infix-to-postfix conversion (src/logic/algorithms.ts):
strip whitespace, scan the tokens, then flush the remaining stack. -/
def infixToPostfix (expression : List Char) : OpResult :=
  let s := infixScan (stripWS expression) [] []
  let f := flushLoop s.2.1 s.2.2
  ⟨s.1 ++ f.1, f.2⟩

/-- Bracket swap used by infix-to-prefix conversion. -/
def swapParen (c : Char) : Char :=
  if c = '(' then ')' else if c = ')' then '(' else c

/-- Infix-to-prefix conversion: reverse the input swapping brackets, run
infix-to-postfix conversion on the transformed string, and reverse its
result; the trace is a synthetic reverse-input entry, then the full
postfix trace, then a synthetic final entry. -/
def infixToPrefix (expression : List Char) : OpResult :=
  let reversed := expression.reverse.map swapParen
  let r := infixToPostfix reversed
  let final := r.result.reverse
  ⟨⟨.reverseMark, [], reversed⟩ :: r.steps ++ [⟨.finalMark, [], final⟩], final⟩

/-- Host template-literal interpolation of a possibly-absent string: an
absent value prints as the text of the word undefined. -/
def jsShow : Option (List Char) → List Char
  | some s => s
  | none => ['u', 'n', 'd', 'e', 'f', 'i', 'n', 'e', 'd']

/-- Host `x || fallback` on a possibly-absent string with the empty string
as fallback: an absent value and an empty string both give the empty
string. -/
def jsOrEmpty : Option (List Char) → List Char
  | some s => s
  | none => []

/-- One token of the postfix-to-infix scan: push an operand; on an
operator pop the right operand first and the left second and push the
parenthesized combination; ignore anything else. -/
def postfixToInfixStep (stack : List (List Char)) (token : Char) :
    List (List Char) :=
  if isOperand token then [token] :: stack
  else if isOperator token then
    let op2 := stack.head?
    let s1 := stack.tail
    let op1 := s1.head?
    let s2 := s1.tail
    ('(' :: jsShow op1 ++ token :: jsShow op2 ++ [')']) :: s2
  else stack

/-- One token of the prefix-to-infix scan (on the reversed input): pop the
left operand first and the right second and push the parenthesized
combination. -/
def prefixToInfixStep (stack : List (List Char)) (token : Char) :
    List (List Char) :=
  if isOperand token then [token] :: stack
  else if isOperator token then
    let op1 := stack.head?
    let s1 := stack.tail
    let op2 := s1.head?
    let s2 := s1.tail
    ('(' :: jsShow op1 ++ token :: jsShow op2 ++ [')']) :: s2
  else stack

/-- One token of the postfix-to-prefix scan: pop right then left, push the
prefix combination (operator, left, right) without parentheses. -/
def postfixToPrefixStep (stack : List (List Char)) (token : Char) :
    List (List Char) :=
  if isOperand token then [token] :: stack
  else if isOperator token then
    let op2 := stack.head?
    let s1 := stack.tail
    let op1 := s1.head?
    let s2 := s1.tail
    (token :: jsShow op1 ++ jsShow op2) :: s2
  else stack

/-- One token of the prefix-to-postfix scan (on the reversed input): pop
left then right, push the postfix combination (left, right, operator). -/
def prefixToPostfixStep (stack : List (List Char)) (token : Char) :
    List (List Char) :=
  if isOperand token then [token] :: stack
  else if isOperator token then
    let op1 := stack.head?
    let s1 := stack.tail
    let op2 := s1.head?
    let s2 := s1.tail
    (jsShow op1 ++ jsShow op2 ++ [token]) :: s2
  else stack

/-- Token loop shared by the four string-stack conversions: apply the
given per-token transition and record one trace entry per token whose
snapshot is taken after the transition and whose output field is the
current top of stack (empty when absent). -/
def strScan (step : List (List Char) → Char → List (List Char)) :
    List Char → List (List Char) → List StrStep × List (List Char)
  | [], stack => ([], stack)
  | t :: ts, stack =>
      let st := step stack t
      let s := strScan step ts st
      (⟨.tok t, st.reverse, jsOrEmpty st.head?⟩ :: s.1, s.2)

/-- Postfix-to-infix conversion (src/logic/algorithms.ts). -/
def postfixToInfix (expression : List Char) : StrResult :=
  let s := strScan postfixToInfixStep (stripWS expression) []
  ⟨s.1, jsOrEmpty s.2.head?⟩

/-- Prefix-to-infix conversion: reverse the stripped tokens first. -/
def prefixToInfix (expression : List Char) : StrResult :=
  let s := strScan prefixToInfixStep (stripWS expression).reverse []
  ⟨s.1, jsOrEmpty s.2.head?⟩

/-- Postfix-to-prefix conversion (src/logic/algorithms.ts). -/
def postfixToPrefix (expression : List Char) : StrResult :=
  let s := strScan postfixToPrefixStep (stripWS expression) []
  ⟨s.1, jsOrEmpty s.2.head?⟩

/-- Prefix-to-postfix conversion: reverse the stripped tokens first. -/
def prefixToPostfix (expression : List Char) : StrResult :=
  let s := strScan prefixToPostfixStep (stripWS expression).reverse []
  ⟨s.1, jsOrEmpty s.2.head?⟩

/-- Numeric value of a digit character. -/
def digitVal (c : Char) : ℚ := (c.toNat - '0'.toNat : ℕ)

/-- Operand coercion of a popped stack value: an absent value (a pop of an
empty stack) behaves exactly like NaN in all five arithmetic operators of
the engine, so it is modelled as NaN. -/
def jsOrNaN : Option JSNum → JSNum
  | some v => v
  | none => .nan

/-- Operator dispatch of the evaluators (`switch (token)` over the five
operators; the accumulator is initialized to 0, so any other token would
leave 0, a case the guard makes unreachable). -/
def applyOp (token : Char) (a b : JSNum) : JSNum :=
  if token = '+' then jsAdd a b
  else if token = '-' then jsSub a b
  else if token = '*' then jsMul a b
  else if token = '/' then jsDiv a b
  else if token = '^' then jsPow a b
  else .num 0

/-- One token of postfix evaluation: push a digit value; on an operator
pop the right operand `b` first and the left operand `a` second and push
`a OP b`; ignore anything else.  The source's operand test parses the
token as an integer and checks the parse did not fail, which on a single
character succeeds exactly for a decimal digit. -/
def evalPostStep (stack : List JSNum) (token : Char) : List JSNum :=
  if token.isDigit then .num (digitVal token) :: stack
  else if isOperator token then
    let b := stack.head?
    let s1 := stack.tail
    let a := s1.head?
    let s2 := s1.tail
    applyOp token (jsOrNaN a) (jsOrNaN b) :: s2
  else stack

/-- One token of prefix evaluation (on the reversed input): pop `a` first
and `b` second and push `a OP b`. -/
def evalPreStep (stack : List JSNum) (token : Char) : List JSNum :=
  if token.isDigit then .num (digitVal token) :: stack
  else if isOperator token then
    let a := stack.head?
    let s1 := stack.tail
    let b := s1.head?
    let s2 := s1.tail
    applyOp token (jsOrNaN a) (jsOrNaN b) :: s2
  else stack

/-- Token loop shared by the two evaluations, one trace entry per token
with the post-transition stack snapshot. -/
def evalScan (step : List JSNum → Char → List JSNum) :
    List Char → List JSNum → List EvalStep × List JSNum
  | [], stack => ([], stack)
  | t :: ts, stack =>
      let st := step stack t
      let s := evalScan step ts st
      (⟨.tok t, st.reverse⟩ :: s.1, s.2)

/-- Host `stack.peek() || 0` on the final stack: an absent top, a NaN top
and a zero top all give 0; any other number is returned as is. -/
def jsNumResult : Option JSNum → JSNum
  | none => .num 0
  | some v => if jsFalsy v then .num 0 else v

/-- Postfix evaluation (src/logic/algorithms.ts). -/
def evaluatePostfix (expression : List Char) : EvalResult :=
  let s := evalScan evalPostStep (stripWS expression) []
  ⟨s.1, jsNumResult s.2.head?⟩

/-- Prefix evaluation: strip whitespace, reverse, then scan. -/
def evaluatePrefix (expression : List Char) : EvalResult :=
  let s := evalScan evalPreStep (stripWS expression).reverse []
  ⟨s.1, jsNumResult s.2.head?⟩

/-- Abstract syntax of a binary arithmetic expression, used to state which
input strings count as well-formed postfix, prefix or fully parenthesized
infix expressions. -/
inductive Expr
  | leaf (c : Char)
  | node (op : Char) (l r : Expr)
deriving DecidableEq

namespace Expr

/-- Well-formedness over single-character operands: every leaf is an
operand and every inner operator symbol is one of the five operators. -/
def wf : Expr → Bool
  | .leaf c => isOperand c
  | .node op l r => isOperator op && l.wf && r.wf

/-- Well-formedness with single-digit leaves (the operand form accepted by
the evaluators). -/
def wfd : Expr → Bool
  | .leaf c => c.isDigit
  | .node op l r => isOperator op && l.wfd && r.wfd

/-- Postfix rendering of an expression. -/
def post : Expr → List Char
  | .leaf c => [c]
  | .node op l r => l.post ++ r.post ++ [op]

/-- Prefix rendering of an expression. -/
def pre : Expr → List Char
  | .leaf c => [c]
  | .node op l r => op :: (l.pre ++ r.pre)

/-- Fully parenthesized infix rendering of an expression. -/
def infixP : Expr → List Char
  | .leaf c => [c]
  | .node op l r => '(' :: (l.infixP ++ op :: (r.infixP ++ [')']))

/-- Mirror image of an expression: children swapped at every node. -/
def mirror : Expr → Expr
  | .leaf c => .leaf c
  | .node op l r => .node op r.mirror l.mirror

/-- Numeric value of a digit-leaf expression under the engine's operator
semantics. -/
def val : Expr → JSNum
  | .leaf c => .num (digitVal c)
  | .node op l r => applyOp op l.val r.val

end Expr

end Converter

namespace Converter

theorem isOperator_cases {c : Char} (h : isOperator c = true) :
    c = '+' ∨ c = '-' ∨ c = '*' ∨ c = '/' ∨ c = '^' := by
  simp [isOperator] at h
  tauto

theorem isOperator_not_operand {c : Char} (h : isOperator c = true) :
    isOperand c = false := by
  rcases isOperator_cases h with h | h | h | h | h <;> subst h <;> decide

theorem isOperator_ne_lparen {c : Char} (h : isOperator c = true) : c ≠ '(' := by
  rcases isOperator_cases h with h | h | h | h | h <;> subst h <;> decide

theorem isOperator_ne_rparen {c : Char} (h : isOperator c = true) : c ≠ ')' := by
  rcases isOperator_cases h with h | h | h | h | h <;> subst h <;> decide

theorem isOperator_not_digit {c : Char} (h : isOperator c = true) :
    c.isDigit = false := by
  rcases isOperator_cases h with h | h | h | h | h <;> subst h <;> decide

theorem isWhitespace_cases {c : Char} (h : c.isWhitespace = true) :
    c = ' ' ∨ c = '\t' ∨ c = '\r' ∨ c = '\n' := by
  simp [Char.isWhitespace] at h
  tauto

theorem isOperand_not_ws {c : Char} (h : isOperand c = true) :
    c.isWhitespace = false := by
  cases hw : c.isWhitespace with
  | false => rfl
  | true =>
      exfalso
      rcases isWhitespace_cases hw with h2 | h2 | h2 | h2 <;> subst h2 <;>
        exact absurd h (by decide)

theorem isOperator_not_ws {c : Char} (h : isOperator c = true) :
    c.isWhitespace = false := by
  rcases isOperator_cases h with h | h | h | h | h <;> subst h <;> decide

theorem isDigit_isOperand {c : Char} (h : c.isDigit = true) :
    isOperand c = true := by
  simp [isOperand, h]

theorem stripWS_append (a b : List Char) :
    stripWS (a ++ b) = stripWS a ++ stripWS b := by
  simp [stripWS]

theorem stripWS_eq_self {l : List Char}
    (h : ∀ c ∈ l, c.isWhitespace = false) : stripWS l = l := by
  rw [stripWS, List.filter_eq_self]
  intro a ha
  simp [h a ha]

theorem stripWS_reverse (l : List Char) :
    stripWS l.reverse = (stripWS l).reverse := by
  simp [stripWS]

theorem opPopLoop_eq (op : Char) (stack output : List Char) :
    opPopLoop op stack output =
      (stack.dropWhile (shouldPop op),
       output ++ stack.takeWhile (shouldPop op)) := by
  induction stack generalizing output with
  | nil => simp [opPopLoop]
  | cons t rest ih =>
      by_cases h : shouldPop op t = true
      · simp [opPopLoop, h, ih]
      · simp [opPopLoop, h]

theorem infixScan_length (ts st out) :
    (infixScan ts st out).1.length = ts.length := by
  induction ts generalizing st out with
  | nil => rfl
  | cons t ts ih => simp [infixScan, ih]

theorem flushLoop_length (st out) : (flushLoop st out).1.length = st.length := by
  induction st generalizing out with
  | nil => rfl
  | cons x r ih => simp [flushLoop, ih]

theorem strScan_length (f) (ts : List Char) (st) :
    (strScan f ts st).1.length = ts.length := by
  induction ts generalizing st with
  | nil => rfl
  | cons t ts ih => simp [strScan, ih]

theorem evalScan_length (f) (ts : List Char) (st) :
    (evalScan f ts st).1.length = ts.length := by
  induction ts generalizing st with
  | nil => rfl
  | cons t ts ih => simp [evalScan, ih]

theorem infixScan_append (xs ys : List Char) (st out : List Char) :
    infixScan (xs ++ ys) st out =
      ((infixScan xs st out).1 ++
        (infixScan ys (infixScan xs st out).2.1 (infixScan xs st out).2.2).1,
       (infixScan ys (infixScan xs st out).2.1 (infixScan xs st out).2.2).2) := by
  induction xs generalizing st out with
  | nil => simp [infixScan]
  | cons t ts ih => simp [infixScan, ih]

theorem strScan_append (f) (xs ys : List Char) (st) :
    strScan f (xs ++ ys) st =
      ((strScan f xs st).1 ++ (strScan f ys (strScan f xs st).2).1,
       (strScan f ys (strScan f xs st).2).2) := by
  induction xs generalizing st with
  | nil => simp [strScan]
  | cons t ts ih => simp [strScan, ih]

theorem evalScan_append (f) (xs ys : List Char) (st) :
    evalScan f (xs ++ ys) st =
      ((evalScan f xs st).1 ++ (evalScan f ys (evalScan f xs st).2).1,
       (evalScan f ys (evalScan f xs st).2).2) := by
  induction xs generalizing st with
  | nil => simp [evalScan]
  | cons t ts ih => simp [evalScan, ih]

theorem infixScan_filter_eof (ts st out) :
    ((infixScan ts st out).1.filter
      (fun e => decide (e.token = TraceTok.eofMark))) = [] := by
  induction ts generalizing st out with
  | nil => rfl
  | cons t ts ih => simp [infixScan, ih, List.filter_cons]

theorem flushLoop_filter_eof (st out) :
    ((flushLoop st out).1.filter
      (fun e => decide (e.token = TraceTok.eofMark))) = (flushLoop st out).1 := by
  induction st generalizing out with
  | nil => rfl
  | cons x r ih => simp [flushLoop, ih, List.filter_cons]

end Converter

namespace Converter

theorem Expr.wfd_wf {e : Expr} (h : e.wfd = true) : e.wf = true := by
  induction e with
  | leaf c => simpa [Expr.wfd, Expr.wf] using isDigit_isOperand (by simpa [Expr.wfd] using h)
  | node op l r ihl ihr =>
      obtain ⟨⟨hop, hl⟩, hr⟩ : (isOperator op = true ∧ l.wfd = true) ∧ r.wfd = true := by
        simpa [Expr.wfd, Bool.and_eq_true] using h
      simp [Expr.wf, hop, ihl hl, ihr hr]

theorem Expr.mirror_wfd {e : Expr} (h : e.wfd = true) : e.mirror.wfd = true := by
  induction e with
  | leaf c => simpa [Expr.mirror] using h
  | node op l r ihl ihr =>
      obtain ⟨⟨hop, hl⟩, hr⟩ : (isOperator op = true ∧ l.wfd = true) ∧ r.wfd = true := by
        simpa [Expr.wfd, Bool.and_eq_true] using h
      simp [Expr.mirror, Expr.wfd, hop, ihl hl, ihr hr]

theorem Expr.post_not_ws {e : Expr} (h : e.wf = true) :
    ∀ c ∈ e.post, c.isWhitespace = false := by
  induction e with
  | leaf c =>
      intro d hd
      simp [Expr.post] at hd
      subst hd
      exact isOperand_not_ws (by simpa [Expr.wf] using h)
  | node op l r ihl ihr =>
      obtain ⟨⟨hop, hl⟩, hr⟩ : (isOperator op = true ∧ l.wf = true) ∧ r.wf = true := by
        simpa [Expr.wf, Bool.and_eq_true] using h
      intro d hd
      simp [Expr.post] at hd
      rcases hd with hd | hd | hd
      · exact ihl hl d hd
      · exact ihr hr d hd
      · subst hd; exact isOperator_not_ws hop

theorem Expr.pre_not_ws {e : Expr} (h : e.wf = true) :
    ∀ c ∈ e.pre, c.isWhitespace = false := by
  induction e with
  | leaf c =>
      intro d hd
      simp [Expr.pre] at hd
      subst hd
      exact isOperand_not_ws (by simpa [Expr.wf] using h)
  | node op l r ihl ihr =>
      obtain ⟨⟨hop, hl⟩, hr⟩ : (isOperator op = true ∧ l.wf = true) ∧ r.wf = true := by
        simpa [Expr.wf, Bool.and_eq_true] using h
      intro d hd
      simp [Expr.pre] at hd
      rcases hd with hd | hd | hd
      · subst hd; exact isOperator_not_ws hop
      · exact ihl hl d hd
      · exact ihr hr d hd

theorem Expr.infixP_not_ws {e : Expr} (h : e.wfd = true) :
    ∀ c ∈ e.infixP, c.isWhitespace = false := by
  induction e with
  | leaf c =>
      intro d hd
      simp [Expr.infixP] at hd
      subst hd
      exact isOperand_not_ws (isDigit_isOperand (by simpa [Expr.wfd] using h))
  | node op l r ihl ihr =>
      obtain ⟨⟨hop, hl⟩, hr⟩ : (isOperator op = true ∧ l.wfd = true) ∧ r.wfd = true := by
        simpa [Expr.wfd, Bool.and_eq_true] using h
      intro d hd
      simp [Expr.infixP] at hd
      rcases hd with hd | hd | hd | hd | hd
      · subst hd; decide
      · exact ihl hl d hd
      · subst hd; exact isOperator_not_ws hop
      · exact ihr hr d hd
      · subst hd; decide

theorem postfixToPrefix_run (e : Expr) (h : e.wf = true) :
    ∀ st, (strScan postfixToPrefixStep e.post st).2 = e.pre :: st := by
  induction e with
  | leaf c =>
      intro st
      have hc : isOperand c = true := by simpa [Expr.wf] using h
      simp [Expr.post, Expr.pre, strScan, postfixToPrefixStep, hc]
  | node op l r ihl ihr =>
      obtain ⟨⟨hop, hl⟩, hr⟩ : (isOperator op = true ∧ l.wf = true) ∧ r.wf = true := by
        simpa [Expr.wf, Bool.and_eq_true] using h
      intro st
      simp only [Expr.post, strScan_append]
      rw [ihl hl st, ihr hr (l.pre :: st)]
      simp [strScan, postfixToPrefixStep, isOperator_not_operand hop, hop,
        jsShow, Expr.pre]

theorem prefixToPostfix_run (e : Expr) (h : e.wf = true) :
    ∀ st, (strScan prefixToPostfixStep e.pre.reverse st).2 = e.post :: st := by
  induction e with
  | leaf c =>
      intro st
      have hc : isOperand c = true := by simpa [Expr.wf] using h
      simp [Expr.post, Expr.pre, strScan, prefixToPostfixStep, hc]
  | node op l r ihl ihr =>
      obtain ⟨⟨hop, hl⟩, hr⟩ : (isOperator op = true ∧ l.wf = true) ∧ r.wf = true := by
        simpa [Expr.wf, Bool.and_eq_true] using h
      intro st
      have hsplit : (Expr.pre (.node op l r)).reverse =
          r.pre.reverse ++ (l.pre.reverse ++ [op]) := by
        simp [Expr.pre]
      rw [hsplit]
      simp only [strScan_append]
      rw [ihr hr st, ihl hl (r.post :: st)]
      simp [strScan, prefixToPostfixStep, isOperator_not_operand hop, hop,
        jsShow, Expr.post]

end Converter

namespace Converter

theorem infixScan_infixP (e : Expr) (h : e.wfd = true) :
    ∀ st out, (infixScan e.infixP st out).2 = (st, out ++ e.post) := by
  induction e with
  | leaf c =>
      intro st out
      have hc : isOperand c = true := isDigit_isOperand (by simpa [Expr.wfd] using h)
      simp [Expr.infixP, Expr.post, infixScan, processInfixToken, hc]
  | node op l r ihl ihr =>
      obtain ⟨⟨hop, hl⟩, hr⟩ : (isOperator op = true ∧ l.wfd = true) ∧ r.wfd = true := by
        simpa [Expr.wfd, Bool.and_eq_true] using h
      intro st out
      have hsplit : Expr.infixP (.node op l r) =
          ['('] ++ (l.infixP ++ ([op] ++ (r.infixP ++ [')']))) := by
        simp [Expr.infixP]
      rw [hsplit]
      simp only [infixScan_append]
      have h1 : (infixScan ['('] st out).2 = ('(' :: st, out) := by
        simp [infixScan, processInfixToken,
          show isOperand '(' = false from by decide]
      rw [h1]
      rw [ihl hl ('(' :: st) out]
      have h2 : (infixScan [op] ('(' :: st) (out ++ l.post)).2 =
          (op :: '(' :: st, out ++ l.post) := by
        simp [infixScan, processInfixToken, isOperator_not_operand hop,
          isOperator_ne_lparen hop, isOperator_ne_rparen hop, hop,
          opPopLoop, shouldPop]
      rw [h2]
      rw [ihr hr (op :: '(' :: st) (out ++ l.post)]
      have h3 : (infixScan [')'] (op :: '(' :: st) (out ++ l.post ++ r.post)).2 =
          (st, out ++ l.post ++ r.post ++ [op]) := by
        simp [infixScan, processInfixToken, parenPopLoop, isOperator_ne_lparen hop,
          show isOperand ')' = false from by decide]
      rw [h3]
      simp [Expr.post]

theorem infixToPostfix_infixP (e : Expr) (h : e.wfd = true) :
    (infixToPostfix e.infixP).result = e.post := by
  have hws : stripWS e.infixP = e.infixP := stripWS_eq_self (Expr.infixP_not_ws h)
  have hrun := infixScan_infixP e h [] []
  simp [infixToPostfix, hws, hrun, flushLoop]

theorem infixP_reverse_swap (e : Expr) (h : e.wfd = true) :
    e.infixP.reverse.map swapParen = e.mirror.infixP := by
  induction e with
  | leaf c =>
      have hd : c.isDigit = true := by simpa [Expr.wfd] using h
      have h1 : c ≠ '(' := fun hc => by subst hc; exact absurd hd (by decide)
      have h2 : c ≠ ')' := fun hc => by subst hc; exact absurd hd (by decide)
      simp [Expr.infixP, Expr.mirror, swapParen, h1, h2]
  | node op l r ihl ihr =>
      obtain ⟨⟨hop, hl⟩, hr⟩ : (isOperator op = true ∧ l.wfd = true) ∧ r.wfd = true := by
        simpa [Expr.wfd, Bool.and_eq_true] using h
      have hswap : swapParen op = op := by
        simp [swapParen, isOperator_ne_lparen hop, isOperator_ne_rparen hop]
      simp [Expr.infixP, Expr.mirror, List.reverse_append, List.map_append,
        hswap, ihl hl, ihr hr, show swapParen '(' = ')' from by decide,
        show swapParen ')' = '(' from by decide]

theorem evalPost_run (e : Expr) (h : e.wfd = true) :
    ∀ st, (evalScan evalPostStep e.post st).2 = e.val :: st := by
  induction e with
  | leaf c =>
      intro st
      have hd : c.isDigit = true := by simpa [Expr.wfd] using h
      simp [Expr.post, Expr.val, evalScan, evalPostStep, hd]
  | node op l r ihl ihr =>
      obtain ⟨⟨hop, hl⟩, hr⟩ : (isOperator op = true ∧ l.wfd = true) ∧ r.wfd = true := by
        simpa [Expr.wfd, Bool.and_eq_true] using h
      intro st
      simp only [Expr.post, evalScan_append]
      rw [ihl hl st, ihr hr (l.val :: st)]
      simp [evalScan, evalPostStep, isOperator_not_digit hop, hop,
        jsOrNaN, Expr.val]

theorem evalPre_run (e : Expr) (h : e.wfd = true) :
    ∀ st, (evalScan evalPreStep e.mirror.post st).2 = e.val :: st := by
  induction e with
  | leaf c =>
      intro st
      have hd : c.isDigit = true := by simpa [Expr.wfd] using h
      simp [Expr.mirror, Expr.post, Expr.val, evalScan, evalPreStep, hd]
  | node op l r ihl ihr =>
      obtain ⟨⟨hop, hl⟩, hr⟩ : (isOperator op = true ∧ l.wfd = true) ∧ r.wfd = true := by
        simpa [Expr.wfd, Bool.and_eq_true] using h
      intro st
      have hsplit : Expr.post (Expr.mirror (.node op l r)) =
          r.mirror.post ++ (l.mirror.post ++ [op]) := by
        simp [Expr.mirror, Expr.post]
      rw [hsplit]
      simp only [evalScan_append]
      rw [ihr hr st, ihl hl (r.val :: st)]
      simp [evalScan, evalPreStep, isOperator_not_digit hop, hop,
        jsOrNaN, Expr.val]

end Converter

namespace Converter

theorem dropWhile_length_le (p : α → Bool) (l : List α) :
    (l.dropWhile p).length ≤ l.length := by
  induction l with
  | nil => simp
  | cons x xs ih =>
      by_cases h : p x = true
      · simp only [List.dropWhile_cons_of_pos h]
        exact Nat.le_trans ih (Nat.le_succ _)
      · simp [List.dropWhile_cons_of_neg h]

theorem parenPopLoop_stack_le (st out : List Char) :
    (parenPopLoop st out).1.length ≤ st.length := by
  induction st generalizing out with
  | nil => simp [parenPopLoop]
  | cons t rest ih =>
      by_cases h : t ≠ '('
      · simp only [parenPopLoop, if_pos h]
        exact Nat.le_trans (ih _) (Nat.le_succ _)
      · simp [parenPopLoop, if_neg h]

theorem processInfixToken_stack_le (st out : List Char) (t : Char) :
    (processInfixToken st out t).1.length ≤ st.length + 1 := by
  simp only [processInfixToken]
  split
  · simp
  · split
    · simp
    · split
      · have := parenPopLoop_stack_le st out
        simp only [List.length_tail]
        omega
      · split
        · simp only [opPopLoop_eq, List.length_cons]
          have := dropWhile_length_le (shouldPop t) st
          omega
        · simp

theorem infixScan_stack_le (ts st out : List Char) :
    (infixScan ts st out).2.1.length ≤ st.length + ts.length := by
  induction ts generalizing st out with
  | nil => simp [infixScan]
  | cons t ts ih =>
      simp only [infixScan, List.length_cons]
      have h1 := processInfixToken_stack_le st out t
      have h2 := ih (processInfixToken st out t).1 (processInfixToken st out t).2
      omega

theorem processInfixToken_other (st out : List Char) {t : Char}
    (h1 : isOperand t = false) (h2 : t ≠ '(') (h3 : t ≠ ')')
    (h4 : isOperator t = false) : processInfixToken st out t = (st, out) := by
  simp [processInfixToken, h1, h2, h3, h4]

theorem infixScan_cons_other (t : Char) (ts st out : List Char)
    (h1 : isOperand t = false) (h2 : t ≠ '(') (h3 : t ≠ ')')
    (h4 : isOperator t = false) :
    infixScan (t :: ts) st out =
      (⟨TraceTok.tok t, st.reverse, out⟩ :: (infixScan ts st out).1,
       (infixScan ts st out).2) := by
  simp [infixScan, processInfixToken_other st out h1 h2 h3 h4]

theorem infixToPostfix_insert_other (t : Char) (xs ys : List Char)
    (h1 : isOperand t = false) (h2 : t ≠ '(') (h3 : t ≠ ')')
    (h4 : isOperator t = false) (h5 : t.isWhitespace = false) :
    (infixToPostfix (xs ++ t :: ys)).result = (infixToPostfix (xs ++ ys)).result := by
  have hstrip : stripWS (xs ++ t :: ys) = stripWS xs ++ t :: stripWS ys := by
    simp [stripWS, List.filter_append, List.filter_cons, h5]
  have hstrip2 : stripWS (xs ++ ys) = stripWS xs ++ stripWS ys := stripWS_append xs ys
  simp only [infixToPostfix, hstrip, hstrip2, infixScan_append]
  rw [infixScan_cons_other t (stripWS ys) _ _ h1 h2 h3 h4]

theorem evalPostStep_op (stack : List JSNum) {t : Char} (h : isOperator t = true) :
    evalPostStep stack t =
      applyOp t (jsOrNaN stack.tail.head?) (jsOrNaN stack.head?) :: stack.tail.tail := by
  simp [evalPostStep, isOperator_not_digit h, h]

theorem evalPreStep_op (stack : List JSNum) {t : Char} (h : isOperator t = true) :
    evalPreStep stack t =
      applyOp t (jsOrNaN stack.head?) (jsOrNaN stack.tail.head?) :: stack.tail.tail := by
  simp [evalPreStep, isOperator_not_digit h, h]

theorem applyOp_nan_left {t : Char} (x : JSNum) (h : isOperator t = true)
    (hne : t ≠ '^') : applyOp t JSNum.nan x = JSNum.nan := by
  rcases isOperator_cases h with h2 | h2 | h2 | h2 | h2 <;> subst h2
  · rcases x with q | p | _ <;> simp [applyOp, jsAdd]
  · rcases x with q | p | _ <;> simp [applyOp, jsSub]
  · rcases x with q | p | _ <;> simp [applyOp, jsMul]
  · rcases x with q | p | _ <;> simp [applyOp, jsDiv]
  · exact absurd rfl hne

theorem applyOp_nan_right {t : Char} (x : JSNum) (h : isOperator t = true) :
    applyOp t x JSNum.nan = JSNum.nan := by
  rcases isOperator_cases h with h2 | h2 | h2 | h2 | h2 <;> subst h2 <;>
    rcases x with q | p | _ <;>
      simp [applyOp, jsAdd, jsSub, jsMul, jsDiv, jsPow]

theorem jsPow_nan_exp (x : JSNum) :
    jsPow JSNum.nan x = if x = JSNum.num 0 then JSNum.num 1 else JSNum.nan := by
  rcases x with q | p | _
  · by_cases hq : q = 0 <;> simp [jsPow, hq]
  · simp [jsPow]
  · simp [jsPow]

end Converter

namespace Converter

/-- C1: the infix-to-postfix scan handles an operator token by popping to
the output exactly the stack elements satisfying the
precedence/associativity test (top not a left parenthesis, and strictly
greater precedence, or equal precedence with a Left-associative incoming
operator) and then pushing the operator; consequently the inputs A+B*C,
A*B+C and A^B^C convert to ABC*+, AB*C+ and ABC^^ respectively. -/
theorem claim_C1 :
    (∀ (stack output : List Char) (op : Char), isOperator op = true →
      processInfixToken stack output op =
        (op :: stack.dropWhile (shouldPop op),
         output ++ stack.takeWhile (shouldPop op))) ∧
    (infixToPostfix (String.toList "A+B*C")).result = String.toList "ABC*+" ∧
    (infixToPostfix (String.toList "A*B+C")).result = String.toList "AB*C+" ∧
    (infixToPostfix (String.toList "A^B^C")).result = String.toList "ABC^^" := by
  refine ⟨?_, by decide, by decide, by decide⟩
  intro stack output op hop
  simp [processInfixToken, isOperator_not_operand hop, isOperator_ne_lparen hop,
    isOperator_ne_rparen hop, hop, opPopLoop_eq]

/-- Witness for C1: the operator branch applied at a concrete state, the
stacked star being popped before the incoming plus is pushed. -/
theorem claim_C1_witness :
    processInfixToken ['*'] [] '+' = (['+'], ['*']) :=
  (claim_C1.1 ['*'] [] '+' (by decide)).trans (by decide)

unseal Rat.add Rat.sub Rat.mul Rat.inv Rat.ofScientific in
/-- C2: postfix evaluation handles an operator by popping the right
operand b first and the left operand a second and pushing a OP b, and
under this pop order the input 234*+ evaluates to 14. -/
theorem claim_C2 :
    (∀ (b a : JSNum) (rest : List JSNum) (op : Char), isOperator op = true →
      evalPostStep (b :: a :: rest) op = applyOp op a b :: rest) ∧
    (evaluatePostfix (String.toList "234*+")).result = JSNum.num 14 := by
  refine ⟨?_, by decide⟩
  intro b a rest op hop
  simp [evalPostStep, isOperator_not_digit hop, hop, jsOrNaN]

/-- Witness for C2: the operator branch applied at a concrete stack. -/
theorem claim_C2_witness :
    evalPostStep [JSNum.num 4, JSNum.num 3] '*' =
      [applyOp '*' (JSNum.num 3) (JSNum.num 4)] :=
  claim_C2.1 (JSNum.num 4) (JSNum.num 3) [] '*' (by decide)

/-- C4: for every valid postfix expression (the postfix rendering of a
well-formed expression tree over single-character operands and the five
operators), converting to prefix and back to postfix returns exactly the
original string. -/
theorem claim_C4 (P : List Char) (h : ∃ e : Expr, e.wf = true ∧ P = e.post) :
    (prefixToPostfix (postfixToPrefix P).result).result = P := by
  obtain ⟨e, hwf, rfl⟩ := h
  have h1 : stripWS e.post = e.post := stripWS_eq_self (Expr.post_not_ws hwf)
  have h2 : stripWS e.pre = e.pre := stripWS_eq_self (Expr.pre_not_ws hwf)
  have hr1 : (postfixToPrefix e.post).result = e.pre := by
    simp [postfixToPrefix, h1, postfixToPrefix_run e hwf [], jsOrEmpty]
  rw [hr1]
  simp [prefixToPostfix, h2, prefixToPostfix_run e hwf [], jsOrEmpty]

/-- Witness for C4: the round trip on the concrete postfix string ab+. -/
theorem claim_C4_witness :
    (prefixToPostfix (postfixToPrefix ['a', 'b', '+']).result).result =
      ['a', 'b', '+'] :=
  claim_C4 ['a', 'b', '+']
    ⟨Expr.node '+' (.leaf 'a') (.leaf 'b'), by decide, by decide⟩

/-- C5 amended: on the empty input, seven of the eight operations return
an empty trace, with result the empty string for the conversions and 0
for the evaluations; infix-to-prefix conversion alone returns the two
synthetic phase-marker entries (with empty stack and output) around an
empty inner trace, with result the empty string. -/
theorem claim_C5 :
    infixToPostfix ([] : List Char) = ⟨[], []⟩ ∧
    postfixToInfix ([] : List Char) = ⟨[], []⟩ ∧
    prefixToInfix ([] : List Char) = ⟨[], []⟩ ∧
    postfixToPrefix ([] : List Char) = ⟨[], []⟩ ∧
    prefixToPostfix ([] : List Char) = ⟨[], []⟩ ∧
    evaluatePostfix ([] : List Char) = ⟨[], JSNum.num 0⟩ ∧
    evaluatePrefix ([] : List Char) = ⟨[], JSNum.num 0⟩ ∧
    infixToPrefix ([] : List Char) =
      ⟨[⟨TraceTok.reverseMark, [], []⟩, ⟨TraceTok.finalMark, [], []⟩], []⟩ := by
  refine ⟨rfl, rfl, rfl, rfl, rfl, by decide, by decide, by decide⟩

/-- C5 counterexample: on the empty input the infix-to-prefix trace is not
empty — it has the two synthetic entries — so not every one of the eight
operations returns an empty trace. -/
theorem claim_C5_counterexample :
    (infixToPrefix ([] : List Char)).steps ≠ [] ∧
    (infixToPrefix ([] : List Char)).steps.length = 2 := by
  exact ⟨by decide, by decide⟩

/-- C6: the trace length of the two evaluations and of the four
string-stack conversions equals the number of non-whitespace characters of
the input, and the trace length of infix-to-postfix conversion equals that
number plus the number of trailing flush entries (the entries tagged with
the end-of-input marker). -/
theorem claim_C6 :
    (∀ s : List Char, (evaluatePostfix s).steps.length = (stripWS s).length) ∧
    (∀ s : List Char, (evaluatePrefix s).steps.length = (stripWS s).length) ∧
    (∀ s : List Char, (postfixToInfix s).steps.length = (stripWS s).length) ∧
    (∀ s : List Char, (prefixToInfix s).steps.length = (stripWS s).length) ∧
    (∀ s : List Char, (postfixToPrefix s).steps.length = (stripWS s).length) ∧
    (∀ s : List Char, (prefixToPostfix s).steps.length = (stripWS s).length) ∧
    (∀ s : List Char, (infixToPostfix s).steps.length =
      (stripWS s).length +
        ((infixToPostfix s).steps.filter
          (fun e => decide (e.token = TraceTok.eofMark))).length) := by
  refine ⟨?_, ?_, ?_, ?_, ?_, ?_, ?_⟩
  · intro s; simp [evaluatePostfix, evalScan_length]
  · intro s; simp [evaluatePrefix, evalScan_length]
  · intro s; simp [postfixToInfix, strScan_length]
  · intro s; simp [prefixToInfix, strScan_length]
  · intro s; simp [postfixToPrefix, strScan_length]
  · intro s; simp [prefixToPostfix, strScan_length]
  · intro s
    simp only [infixToPostfix, List.length_append, List.filter_append,
      infixScan_filter_eof, flushLoop_filter_eof]
    simp [infixScan_length, flushLoop_length]

/-- C9: stack snapshots are by-value and bottom-to-top — pushing onto a
stack extends its snapshot at the end, leaving the previously taken
snapshot intact as a prefix, and the trace entries recorded by a scan over
a prefix of the input reappear unchanged, as a prefix, in the trace of any
longer run, so later stack mutation never alters an already recorded
entry. -/
theorem claim_C9 :
    (∀ (l : List Char) (x : Char),
      Stack.toArray (Stack.push ⟨l⟩ x) = Stack.toArray ⟨l⟩ ++ [x]) ∧
    (∀ (xs ys st out : List Char),
      (infixScan (xs ++ ys) st out).1 =
        (infixScan xs st out).1 ++
          (infixScan ys (infixScan xs st out).2.1 (infixScan xs st out).2.2).1) ∧
    (∀ (f : List (List Char) → Char → List (List Char)) (xs ys : List Char)
      (st : List (List Char)),
      (strScan f (xs ++ ys) st).1 =
        (strScan f xs st).1 ++ (strScan f ys (strScan f xs st).2).1) ∧
    (∀ (f : List JSNum → Char → List JSNum) (xs ys : List Char)
      (st : List JSNum),
      (evalScan f (xs ++ ys) st).1 =
        (evalScan f xs st).1 ++ (evalScan f ys (evalScan f xs st).2).1) := by
  refine ⟨?_, ?_, ?_, ?_⟩
  · intro l x; simp [Stack.toArray, Stack.push]
  · intro xs ys st out; rw [infixScan_append]
  · intro f xs ys st; rw [strScan_append]
  · intro f xs ys st; rw [evalScan_append]

end Converter

namespace Converter

unseal Rat.add Rat.sub Rat.mul Rat.inv Rat.ofScientific in
/-- C3 counterexample: for the input 5-1-2 the postfix route evaluates to
2 while the prefix route evaluates to 6, because the infix-to-prefix
conversion does not flip associativity when scanning the reversed input,
so the two evaluation routes are not equal for every single-digit infix
expression. -/
theorem claim_C3_counterexample :
    (evaluatePostfix (infixToPostfix (String.toList "5-1-2")).result).result =
      JSNum.num 2 ∧
    (evaluatePrefix (infixToPrefix (String.toList "5-1-2")).result).result =
      JSNum.num 6 ∧
    (evaluatePostfix (infixToPostfix (String.toList "5-1-2")).result).result ≠
      (evaluatePrefix (infixToPrefix (String.toList "5-1-2")).result).result := by
  refine ⟨by decide, by decide, by decide⟩

/-- C3 amended: restricted to fully parenthesized infix expressions over
single-digit operands, evaluating the postfix conversion and evaluating
the prefix conversion agree. -/
theorem claim_C3 (e : Expr) (h : e.wfd = true) :
    (evaluatePostfix (infixToPostfix e.infixP).result).result =
      (evaluatePrefix (infixToPrefix e.infixP).result).result := by
  have hm : e.mirror.wfd = true := Expr.mirror_wfd h
  have hpost : (infixToPostfix e.infixP).result = e.post := infixToPostfix_infixP e h
  have hpre : (infixToPrefix e.infixP).result = e.mirror.post.reverse := by
    simp [infixToPrefix, infixP_reverse_swap e h, infixToPostfix_infixP e.mirror hm]
  rw [hpost, hpre]
  have hws1 : stripWS e.post = e.post :=
    stripWS_eq_self (Expr.post_not_ws (Expr.wfd_wf h))
  have hws2 : stripWS e.mirror.post.reverse = e.mirror.post.reverse := by
    rw [stripWS_reverse, stripWS_eq_self (Expr.post_not_ws (Expr.wfd_wf hm))]
  simp [evaluatePostfix, evaluatePrefix, hws1, hws2, List.reverse_reverse,
    evalPost_run e h [], evalPre_run e h []]

/-- Witness for C3: the fully parenthesized expression (1+2) evaluated
along both routes. -/
theorem claim_C3_witness :
    (Expr.node '+' (.leaf '1') (.leaf '2')).wfd = true ∧
    (evaluatePostfix
        (infixToPostfix (Expr.node '+' (.leaf '1') (.leaf '2')).infixP).result).result =
      (evaluatePrefix
        (infixToPrefix (Expr.node '+' (.leaf '1') (.leaf '2')).infixP).result).result :=
  ⟨by decide, claim_C3 (Expr.node '+' (.leaf '1') (.leaf '2')) (by decide)⟩

end Converter

namespace Converter

/-- C7: a token that is neither an operand, an operator, nor a parenthesis
handled by the operation falls through every branch: the per-token
transition of each scan leaves the stack and output unchanged, the
recorded trace entry carries the unchanged snapshot and output, and such a
token does not affect the final result. -/
theorem claim_C7 :
    (∀ (stack output : List Char) (t : Char),
      isOperand t = false → t ≠ '(' → t ≠ ')' → isOperator t = false →
      processInfixToken stack output t = (stack, output)) ∧
    (∀ (stack : List (List Char)) (t : Char),
      isOperand t = false → isOperator t = false →
      postfixToInfixStep stack t = stack ∧ prefixToInfixStep stack t = stack ∧
        postfixToPrefixStep stack t = stack ∧ prefixToPostfixStep stack t = stack) ∧
    (∀ (stack : List JSNum) (t : Char),
      t.isDigit = false → isOperator t = false →
      evalPostStep stack t = stack ∧ evalPreStep stack t = stack) ∧
    (∀ (t : Char) (ts stack output : List Char),
      isOperand t = false → t ≠ '(' → t ≠ ')' → isOperator t = false →
      infixScan (t :: ts) stack output =
        (⟨TraceTok.tok t, stack.reverse, output⟩ :: (infixScan ts stack output).1,
         (infixScan ts stack output).2)) ∧
    (∀ (t : Char) (xs ys : List Char),
      isOperand t = false → t ≠ '(' → t ≠ ')' → isOperator t = false →
      t.isWhitespace = false →
      (infixToPostfix (xs ++ t :: ys)).result =
        (infixToPostfix (xs ++ ys)).result) := by
  refine ⟨?_, ?_, ?_, ?_, ?_⟩
  · intro st out t h1 h2 h3 h4
    exact processInfixToken_other st out h1 h2 h3 h4
  · intro st t h1 h4
    refine ⟨?_, ?_, ?_, ?_⟩ <;>
      simp [postfixToInfixStep, prefixToInfixStep, postfixToPrefixStep,
        prefixToPostfixStep, h1, h4]
  · intro st t h1 h4
    exact ⟨by simp [evalPostStep, h1, h4], by simp [evalPreStep, h1, h4]⟩
  · intro t ts st out h1 h2 h3 h4
    exact infixScan_cons_other t ts st out h1 h2 h3 h4
  · intro t xs ys h1 h2 h3 h4 h5
    exact infixToPostfix_insert_other t xs ys h1 h2 h3 h4 h5

/-- Witness for C7: the unhandled character # at concrete states of each
scan, and its removal not changing a conversion result. -/
theorem claim_C7_witness :
    processInfixToken ['('] ['a'] '#' = (['('], ['a']) ∧
    postfixToInfixStep [['a']] '#' = [['a']] ∧
    evalPostStep [JSNum.num 1] '#' = [JSNum.num 1] ∧
    (infixToPostfix (['a'] ++ '#' :: ['b'])).result =
      (infixToPostfix (['a'] ++ ['b'])).result :=
  ⟨claim_C7.1 ['('] ['a'] '#' (by decide) (by decide) (by decide) (by decide),
   (claim_C7.2.1 [['a']] '#' (by decide) (by decide)).1,
   (claim_C7.2.2.1 [JSNum.num 1] '#' (by decide) (by decide)).1,
   claim_C7.2.2.2.2 '#' ['a'] ['b'] (by decide) (by decide) (by decide)
     (by decide) (by decide)⟩

unseal Rat.add Rat.sub Rat.mul Rat.inv Rat.ofScientific in
/-- C8: pop and peek on the empty stack return the absent value rather
than raising an error; every infix-to-postfix trace is bounded by twice
the stripped token count, witnessing linear termination; and on malformed
inputs — unmatched parentheses on either side, a lone operator with no
operands — and on the empty input, every operation still returns a plain
well-typed result record. -/
theorem claim_C8 :
    (Stack.pop (⟨[]⟩ : Stack Char)).1 = none ∧
    Stack.peek (⟨[]⟩ : Stack Char) = none ∧
    (∀ s : List Char, (infixToPostfix s).steps.length ≤ 2 * (stripWS s).length) ∧
    (infixToPostfix (String.toList "((a+b")).result = String.toList "ab+((" ∧
    (infixToPostfix (String.toList ")a+b(")).result = String.toList "ab(+" ∧
    (postfixToInfix (String.toList "+")).result =
      String.toList "(undefined+undefined)" ∧
    (prefixToInfix (String.toList "+")).result =
      String.toList "(undefined+undefined)" ∧
    (postfixToPrefix (String.toList "+")).result =
      String.toList "+undefinedundefined" ∧
    (prefixToPostfix (String.toList "+")).result =
      String.toList "undefinedundefined+" ∧
    (evaluatePostfix (String.toList "+")).result = JSNum.num 0 ∧
    (evaluatePrefix (String.toList "+")).result = JSNum.num 0 ∧
    (evaluatePostfix ([] : List Char)).result = JSNum.num 0 := by
  refine ⟨rfl, rfl, ?_, by decide, by decide, by decide, by decide, by decide,
    by decide, by decide, by decide, by decide⟩
  intro s
  simp only [infixToPostfix, List.length_append]
  have h1 := infixScan_length (stripWS s) [] []
  have h2 := flushLoop_length (infixScan (stripWS s) [] []).2.1
    (infixScan (stripWS s) [] []).2.2
  have h3 := infixScan_stack_le (stripWS s) [] []
  simp only [List.length_nil] at h3
  omega

unseal Rat.add Rat.sub Rat.mul Rat.inv Rat.ofScientific in
/-- C10 counterexample: the exponentiation operator applied with a single
stacked operand 0 pushes the numeric value 1 — host pow of NaN and
exponent 0 is 1 — and the input 0^ therefore returns 1, so an absent
operand does not always propagate to a non-numeric pushed value. -/
theorem claim_C10_counterexample :
    evalPostStep [JSNum.num 0] '^' = [JSNum.num 1] ∧
    (evaluatePostfix (String.toList "0^")).result = JSNum.num 1 ∧
    JSNum.num 1 ≠ JSNum.nan := by
  refine ⟨by decide, by decide, by decide⟩

/-- C10 amended: an operator processed with fewer than two stacked numbers
raises no error and pushes NaN — except postfix exponentiation with
exactly one stacked operand, which pushes 1 when that operand, the popped
exponent, is 0, and NaN otherwise — and whenever the final top of the
stack is NaN, or the stack is empty, the returned result is 0, the same
value as for empty input, because the result is the top of the stack with
0 as fallback. -/
theorem claim_C10 :
    (∀ (stack : List JSNum) (t : Char), isOperator t = true → t ≠ '^' →
      stack.length < 2 → evalPostStep stack t = [JSNum.nan]) ∧
    (evalPostStep [] '^' = [JSNum.nan]) ∧
    (∀ x : JSNum, evalPostStep [x] '^' =
      [if x = JSNum.num 0 then JSNum.num 1 else JSNum.nan]) ∧
    (∀ (stack : List JSNum) (t : Char), isOperator t = true →
      stack.length < 2 → evalPreStep stack t = [JSNum.nan]) ∧
    (∀ s : List Char,
      ((evalScan evalPostStep (stripWS s) []).2.head? = some JSNum.nan ∨
        (evalScan evalPostStep (stripWS s) []).2 = []) →
      (evaluatePostfix s).result = JSNum.num 0) ∧
    (∀ s : List Char,
      ((evalScan evalPreStep (stripWS s).reverse []).2.head? = some JSNum.nan ∨
        (evalScan evalPreStep (stripWS s).reverse []).2 = []) →
      (evaluatePrefix s).result = JSNum.num 0) := by
  refine ⟨?_, by decide, ?_, ?_, ?_, ?_⟩
  · intro stack t hop hne hlen
    rcases stack with _ | ⟨x, stack2⟩
    · rw [evalPostStep_op [] hop]
      simp [jsOrNaN, applyOp_nan_left JSNum.nan hop hne]
    · rcases stack2 with _ | ⟨y, rest⟩
      · rw [evalPostStep_op [x] hop]
        simp [jsOrNaN, applyOp_nan_left x hop hne]
      · simp only [List.length_cons] at hlen; omega
  · intro x
    rw [evalPostStep_op [x] (by decide)]
    simp [jsOrNaN, applyOp, jsPow_nan_exp x]
  · intro stack t hop hlen
    rcases stack with _ | ⟨x, stack2⟩
    · rw [evalPreStep_op [] hop]
      simp [jsOrNaN, applyOp_nan_right JSNum.nan hop]
    · rcases stack2 with _ | ⟨y, rest⟩
      · rw [evalPreStep_op [x] hop]
        simp [jsOrNaN, applyOp_nan_right x hop]
      · simp only [List.length_cons] at hlen; omega
  · intro s h
    rcases h with h | h
    · simp [evaluatePostfix, h, jsNumResult, jsFalsy]
    · simp [evaluatePostfix, h, jsNumResult]
  · intro s h
    rcases h with h | h
    · simp [evaluatePrefix, h, jsNumResult, jsFalsy]
    · simp [evaluatePrefix, h, jsNumResult]

unseal Rat.add Rat.sub Rat.mul Rat.inv Rat.ofScientific in
/-- Witness for C10: concrete short-stack operator steps and the zero
result of lone-operator inputs. -/
theorem claim_C10_witness :
    evalPostStep [] '+' = [JSNum.nan] ∧
    evalPreStep [JSNum.num 3] '*' = [JSNum.nan] ∧
    evalPostStep [JSNum.num 3] '^' = [JSNum.nan] ∧
    (evaluatePostfix (String.toList "+")).result = JSNum.num 0 ∧
    (evaluatePrefix (String.toList "-")).result = JSNum.num 0 :=
  ⟨claim_C10.1 [] '+' (by decide) (by decide) (by decide),
   claim_C10.2.2.2.1 [JSNum.num 3] '*' (by decide) (by decide),
   (claim_C10.2.2.1 (JSNum.num 3)).trans (by decide),
   claim_C10.2.2.2.2.1 (String.toList "+") (Or.inl (by decide)),
   claim_C10.2.2.2.2.2 (String.toList "-") (Or.inl (by decide))⟩

end Converter
